import Mathlib

/-!
# A verification development for the sshot SSH orchestrator

This file gives a shallow embedding, in Lean 4, of the core task-execution
state machine and group scheduler of the `sshot` tool (Go), and proves
properties of that embedding.

Modelling conventions:
* Go maps become association lists; a `nil` Go map that can be written to
  (and hence can panic) is modelled as `Option` of an association list,
  `none` standing for the nil map.  Writing through `none` yields the
  explicit `panicked` outcome.
* Go errors are a small inductive type (`GoErr`): either a structured
  ssh.ExitError carrying an exit status, or a plain message.
* The remote executor is an oracle `Nat → String × Option GoErr` giving the
  output and error of each numbered attempt; real time (the retry delay and
  the timeout timer) is abstracted by recording the seconds the code would
  sleep and by a Boolean oracle for "has the timeout timer fired at this
  check point".
* Go's `strings` helpers are re-implemented over `List Char`
  (`goTrimSpace`, `goTrim`, ...) restricted to the ASCII whitespace set.
-/

namespace Sshot

/-- ASCII part of Go `unicode.IsSpace` (space, tab, newline, vertical tab,
form feed, carriage return). -/
def goIsSpace (c : Char) : Bool :=
  c = ' ' || c = '\t' || c = '\n' || c = Char.ofNat 11 || c = Char.ofNat 12 || c = '\r'

/-- Go `strings.TrimSpace` on a character list: drop leading whitespace,
then trailing whitespace. -/
def goTrimSpaceList (l : List Char) : List Char :=
  (((l.dropWhile goIsSpace).reverse.dropWhile goIsSpace)).reverse

/-- Go `strings.TrimSpace`. -/
def goTrimSpace (s : String) : String :=
  String.mk (goTrimSpaceList s.data)

/-- Does the first list lead the second (list-level `HasPrefix`)?  Defined
by structural recursion so that the kernel can evaluate it. -/
def leadsWith : List Char → List Char → Bool
  | [], _ => true
  | _ :: _, [] => false
  | a :: as, b :: bs => a = b && leadsWith as bs

/-- Go `strings.HasSuffix`. -/
def goHasSuffix (s suf : String) : Bool :=
  leadsWith suf.data.reverse s.data.reverse

/-- Go `strings.TrimSuffix`: drop `suf` from the end of `s` when present. -/
def goTrimSuffix (s suf : String) : String :=
  if goHasSuffix s suf then String.mk (s.data.take (s.data.length - suf.data.length))
  else s

/-- Go `strings.Trim` with an explicit cutset: remove leading and trailing
characters belonging to `cut`. -/
def goTrimList (cut : List Char) (l : List Char) : List Char :=
  ((l.dropWhile (fun c => cut.contains c)).reverse.dropWhile
    (fun c => cut.contains c)).reverse

/-- Go `strings.Trim`. -/
def goTrim (s : String) (cut : List Char) : String :=
  String.mk (goTrimList cut s.data)

/-- The cutset `"'\""` used by `evaluateCondition` for the right-hand side
of an equality condition (single and double quote). -/
def quoteChars : List Char := [Char.ofNat 39, Char.ofNat 34]

/-- The scanning loop of Go `strings.Split` for a nonempty separator:
greedy leftmost, non-overlapping; `acc` is the reversed current field.
Fueled for structural recursion (called with more fuel than characters). -/
def goSplitLoop (sep : List Char) : Nat → List Char → List Char → List (List Char)
  | 0, acc, rest => [acc.reverse ++ rest]
  | _ + 1, acc, [] => [acc.reverse]
  | fuel + 1, acc, c :: cs =>
    if leadsWith sep (c :: cs) then
      acc.reverse :: goSplitLoop sep fuel [] (List.drop sep.length (c :: cs))
    else
      goSplitLoop sep fuel (c :: acc) cs

/-- Go `strings.Split` (an empty separator explodes the string into its
characters, as in Go). -/
def goSplit (s sep : String) : List String :=
  if sep = "" then s.data.map (fun c => String.mk [c])
  else (goSplitLoop sep.data (s.data.length + 1) [] s.data).map String.mk

/-- Go `strings.Contains`, expressed through `goSplit` (a nonempty
separator occurs in `s` iff splitting on it yields at least two parts). -/
def goContainsStr (s sub : String) : Bool :=
  sub == "" || decide (2 ≤ (goSplit s sub).length)

/-- Substring presence as list-infix; used to state "the error message
contains ..." claims. Semantically Go `strings.Contains`. -/
def strContains (s sub : String) : Bool :=
  decide (sub.data <:+: s.data)

/-- Variable environments: Go `map[string]interface{}` restricted to the
string-valued entries the core manipulates, as an association list where
the most recent binding is first. -/
def Vars := List (String × String)
deriving DecidableEq, Repr, Inhabited

/-- Map read. A `none` environment is Go's nil map: reads succeed and find
nothing. -/
def lookupVar (vars : Option Vars) (k : String) : Option String :=
  match vars with
  | none => none
  | some vs => List.lookup k vs

/-- Map write (`m[k] = v`): the new binding shadows any older one. -/
def setVar (vs : Vars) (k v : String) : Vars :=
  (k, v) :: vs

/-- `for k, v := range m2 { m1[k] = v }` in declaration order. -/
def mergeVars (vs : Vars) (upd : Vars) : Vars :=
  upd.foldl (fun acc kv => setVar acc kv.1 kv.2) vs

/-- Set-like insertion into a list of strings (Go `m[k] = true` on a
`map[string]bool` used as a set). -/
def insertStr (l : List String) (s : String) : List String :=
  if s ∈ l then l else s :: l

/-- One pass of `{{.name}}` template substitution over a character list,
with fuel for termination.  This models the subset of Go's `text/template`
the playbooks use: each `{{.name}}` is replaced by the value of `name` in
the environment, or by the sentinel `<no value>` when the key is absent
(including when the environment is the nil map). -/
def substChars (vars : Option Vars) : Nat → List Char → List Char
  | 0, cs => cs
  | _ + 1, [] => []
  | fuel + 1, c :: cs =>
    match c, cs with
    | '{', '{' :: '.' :: rest =>
      let name := String.mk (rest.takeWhile (fun d => d ≠ '}'))
      match rest.dropWhile (fun d => d ≠ '}') with
      | '}' :: '}' :: rest2 =>
        ((lookupVar vars name).getD "<no value>").data ++ substChars vars fuel rest2
      | _ => c :: substChars vars fuel cs
    | _, _ => c :: substChars vars fuel cs

/-- `Executor.substituteVars`: render the text through the variable
environment (template semantics as in `substChars`). -/
def substituteVars (vars : Option Vars) (text : String) : String :=
  String.mk (substChars vars text.data.length text.data)

/-- `Executor.evaluateCondition`, translated from the source:
trim the condition; a condition ending in `is defined` is a key-presence
test; otherwise a condition containing `==` that splits into exactly two
parts compares the substituted-and-trimmed left side with the right side
after trimming quote characters and then whitespace; anything else is
permissively true. -/
def evaluateCondition (vars : Option Vars) (condition : String) : Bool :=
  let c := goTrimSpace condition
  if goHasSuffix c "is defined" then
    let varName := goTrimSpace (goTrimSuffix c "is defined")
    (lookupVar vars varName).isSome
  else if goContainsStr c "==" then
    match goSplit c "==" with
    | [l, r] =>
      goTrimSpace (substituteVars vars l) == goTrimSpace (goTrim r quoteChars)
    | _ => true
  else true

/-! ## Errors and exit-code extraction -/

/-- Go errors as the core observes them: either a structured
`*ssh.ExitError` carrying an exit status, or a plain error message. -/
inductive GoErr where
  | exitError : Int → GoErr
  | msg : String → GoErr
deriving DecidableEq, Repr

/-- The `Error()` text of a modelled error (the ssh `ExitError` renders its
Waitmsg as `Process exited with status N`). -/
def errMsg : GoErr → String
  | .exitError n => "Process exited with status " ++ toString n
  | .msg s => s

/-- Digit-string reader on characters (the numeric core of `Atoi`;
overflow is not modelled). -/
def natOfAux : List Char → Nat → Option Nat
  | [], acc => some acc
  | c :: cs, acc =>
    if c.isDigit then natOfAux cs (acc * 10 + (c.toNat - 48)) else none

/-- A nonempty all-digit character list as a number. -/
def natOf : List Char → Option Nat
  | [] => none
  | cs => natOfAux cs 0

/-- Go `strconv.Atoi`: optional sign followed by digits only. -/
def goAtoi (s : String) : Option Int :=
  match s.data with
  | '+' :: cs => (natOf cs).map Int.ofNat
  | '-' :: cs => (natOf cs).map (fun n => -(n : Int))
  | cs => (natOf cs).map Int.ofNat

/-- The free-text patterns `extractExitCode` searches for, in order. -/
def exitPatterns : List String :=
  ["Process exited with status ", "exit status ", "exited with code "]

/-- Go `strings.Join`. -/
def joinWith (sep : String) : List String → String
  | [] => ""
  | [x] => x
  | x :: xs => x ++ sep ++ joinWith sep xs

/-- Everything after the first occurrence of `pat` in `s`
(Go `errStr[idx+len(pattern):]` for `idx = strings.Index(errStr, pattern)`),
or `none` when `pat` does not occur. -/
def afterFirst (s pat : String) : Option String :=
  match goSplit s pat with
  | [] => none
  | [_] => none
  | _ :: rest => some (joinWith pat rest)

/-- Extract the candidate code after `pat`: trim whitespace, cut at the
first space (Go trims only when the space index is positive, which after
`TrimSpace` coincides with cutting at the first space), and `Atoi` it. -/
def parseCodeAfter (s pat : String) : Option Int :=
  match afterFirst s pat with
  | none => none
  | some tail =>
    let codeStr := goTrimSpace tail
    goAtoi (String.mk (codeStr.data.takeWhile (fun c => c ≠ ' ')))

/-- Try each pattern in order; a pattern whose tail does not parse is
skipped, as in the source loop. -/
def scanPatterns (s : String) : List String → Int
  | [] => -1
  | p :: ps =>
    match parseCodeAfter s p with
    | some c => c
    | none => scanPatterns s ps

/-- `extractExitCode`, translated from the source: a structured
`ssh.ExitError` yields its status directly; otherwise the error text is
scanned for the known patterns; `-1` when nothing parses. -/
def extractExitCode : GoErr → Int
  | .exitError n => n
  | .msg s => scanPatterns s exitPatterns

/-- `Executor.isAllowedExitCode`, translated from the source (`none`
stands for the Go `nil` error). -/
def isAllowedExitCode (err : Option GoErr) (allowedCodes : List Int) : Bool :=
  match err with
  | none => true
  | some e =>
    if allowedCodes.isEmpty then false
    else
      let exitCode := extractExitCode e
      if exitCode < 0 then false
      else allowedCodes.contains exitCode

/-! ## Tasks, executor state, and the task state machine -/

/-- `CopyTask`. -/
structure CopyTask where
  src : String := ""
  dest : String := ""
  mode : String := ""
deriving DecidableEq, Repr

/-- `Task` (the fields the execution core reads; `only_groups` and
`skip_groups` are filtered before `ExecuteTask` and are not modelled). -/
structure Task where
  name : String := ""
  command : String := ""
  script : String := ""
  copy : Option CopyTask := none
  shell : String := ""
  sudoFlag : Bool := false
  whenCond : String := ""
  register : String := ""
  localAction : String := ""
  delegateTo : String := ""
  runOnce : Bool := false
  ignoreError : Bool := false
  vars : Vars := []
  dependsOn : List String := []
  waitFor : String := ""
  retries : Nat := 0
  retryDelay : Nat := 0
  timeout : Nat := 0
  untilSuccess : Bool := false
  allowedExitCodes : List Int := []
deriving DecidableEq, Repr

/-- The action the switch in the retry loop selects, in the source's case
order (the `Command != "" && DelegateTo != ""` case is unreachable because
the plain `Command != ""` case precedes it). -/
inductive ActionKind where
  | command | shell | script | localAction | copy | waitFor | noType
deriving DecidableEq, Repr

/-- Which case of the switch fires for a task. -/
def taskKind (t : Task) : ActionKind :=
  if t.command ≠ "" then .command
  else if t.shell ≠ "" then .shell
  else if t.script ≠ "" then .script
  else if t.localAction ≠ "" then .localAction
  else if t.copy.isSome then .copy
  else if t.waitFor ≠ "" then .waitFor
  else .noType

/-- The cases that run the allowed-exit-code check after a failure
(command, shell, script and local action do; copy and wait_for do not). -/
def checksAllowed : ActionKind → Bool
  | .command => true
  | .shell => true
  | .script => true
  | .localAction => true
  | _ => false

/-- Mutable executor state: the variable environment (`none` = nil map),
the registers map, the host's completed-task set, and the process-wide
run-once registry (`runOnceTasks.executed`), threaded through explicitly. -/
structure ExecState where
  varEnv : Option Vars := some []
  registers : Vars := []
  completedTasks : List String := []
  runOnceExecuted : List String := []
deriving DecidableEq, Repr

/-- The subset of `ExecutionOptions` the state machine branches on. -/
structure ExecOpts where
  dryRun : Bool := false
deriving DecidableEq, Repr

/-- Outcome of `ExecuteTask`: normal return `nil`, an error, or a runtime
panic (write to a nil map). -/
inductive TaskOutcome where
  | ok : TaskOutcome
  | err : String → TaskOutcome
  | panicked : TaskOutcome
deriving DecidableEq, Repr

/-- Result of one `ExecuteTask` call: the new state, the outcome, how many
times the underlying action ran, and the seconds slept between attempts. -/
structure TaskRun where
  state : ExecState
  outcome : TaskOutcome
  actionCalls : Nat
  waits : List Nat
deriving DecidableEq, Repr

/-- `e.completedTasks[task.Name] = true`. -/
def markCompleted (st : ExecState) (name : String) : ExecState :=
  { st with completedTasks := insertStr st.completedTasks name }

/-- The variable environment after the task-level merge (the merge itself
panics when the task declares variables and the environment is nil; this
helper is only meaningful when that panic does not fire). -/
def mergedVariables (st : ExecState) (task : Task) : Option Vars :=
  if task.vars = [] then st.varEnv
  else some (mergeVars (st.varEnv.getD []) task.vars)

/-- One attempt of the selected action: run the oracle, then null the
error when the exit code is allowed — only for the cases that perform the
check. -/
def attemptOnce (task : Task) (action : Nat → String × Option GoErr) (n : Nat) :
    String × Option GoErr :=
  let r := action n
  if checksAllowed (taskKind task)
      && r.2.isSome && !task.allowedExitCodes.isEmpty
      && isAllowedExitCode r.2 task.allowedExitCodes
  then (r.1, none) else r

/-- How the retry loop ended. -/
inductive LoopEnd where
  | success : String → LoopEnd
  | failure : String → GoErr → LoopEnd
  | timedOut : GoErr → LoopEnd
  | noType : LoopEnd
deriving DecidableEq, Repr

/-- Observable summary of the loop. -/
structure LoopOut where
  fin : LoopEnd
  calls : Nat
  waits : List Nat
deriving DecidableEq, Repr

/-- The retry loop of `ExecuteTask`.  `attempt` is the number of the
attempt about to run; `tick` indexes consultations of the timeout-timer
oracle (only consulted when a timeout is configured); `fuel` bounds the
recursion and is always called with at least `maxAttempts`. -/
def runAttempts (task : Task) (action : Nat → String × Option GoErr)
    (timer : Nat → Bool) (delaySec maxAttempts : Nat) :
    Nat → Nat → Nat → Nat → List Nat → LoopOut
  | 0, _, _, calls, waits => ⟨.failure "" (.msg "fuel exhausted"), calls, waits⟩
  | fuel + 1, attempt, tick, calls, waits =>
    if taskKind task = .noType then ⟨.noType, calls, waits⟩
    else
      let r := attemptOnce task action attempt
      let calls1 := calls + 1
      match r.2 with
      | none => ⟨.success r.1, calls1, waits⟩
      | some e =>
        if task.timeout > 0 && timer tick then ⟨.timedOut e, calls1, waits⟩
        else
          let tick1 := if task.timeout > 0 then tick + 1 else tick
          if maxAttempts ≤ attempt then ⟨.failure r.1 e, calls1, waits⟩
          else if task.timeout > 0 && timer tick1 then ⟨.timedOut e, calls1, waits⟩
          else
            runAttempts task action timer delaySec maxAttempts fuel (attempt + 1)
              (if task.timeout > 0 then tick1 + 1 else tick1) calls1
              (waits ++ [delaySec])

/-- The register-and-finish tail of `ExecuteTask`: store the output under
the register name (in the registers map and the variable environment —
the latter a panic on a nil environment), then apply the
`ignore_error`/propagate policy. -/
def finishTask (task : Task) (st : ExecState) (output : String)
    (errOpt : Option GoErr) (calls : Nat) (waits : List Nat) : TaskRun :=
  let doReg := task.register ≠ ""
  let st1 := if doReg then { st with registers := setVar st.registers task.register output }
             else st
  if doReg ∧ st.varEnv = none then ⟨st1, .panicked, calls, waits⟩
  else
    let newVars : Option Vars := some (setVar (st.varEnv.getD []) task.register output)
    let st2 := if doReg then { st1 with varEnv := newVars } else st1
    match errOpt with
    | some e =>
      if task.ignoreError then ⟨markCompleted st2 task.name, .ok, calls, waits⟩
      else ⟨st2, .err (errMsg e), calls, waits⟩
    | none => ⟨markCompleted st2 task.name, .ok, calls, waits⟩

/-- `Executor.ExecuteTask`, translated from the source: delegation check,
localhost-delegation rewrite, run-once check and claim, dependency check,
task-variable merge, `when` evaluation, dry-run short-circuit, and the
retry loop with registration and failure handling. -/
def executeTask (opts : ExecOpts) (hostName : String) (task0 : Task)
    (action : Nat → String × Option GoErr) (timer : Nat → Bool)
    (st0 : ExecState) : TaskRun :=
  -- delegation: skip (but mark completed) on a non-delegate host
  if task0.delegateTo ≠ "" ∧ task0.delegateTo ≠ hostName ∧ task0.delegateTo ≠ "localhost" then
    ⟨markCompleted st0 task0.name, .ok, 0, []⟩
  else
    -- delegation to localhost turns a command into a local action
    let task := if task0.delegateTo = "localhost" ∧ task0.command ≠ ""
                then { task0 with localAction := task0.command, command := "" }
                else task0
    -- run-once: skip when already executed, otherwise claim the registry
    if task.runOnce ∧ task.name ∈ st0.runOnceExecuted then
      ⟨markCompleted st0 task.name, .ok, 0, []⟩
    else
      let st1 := if task.runOnce
                 then { st0 with runOnceExecuted := insertStr st0.runOnceExecuted task.name }
                 else st0
      -- dependency check (first missing dependency is reported)
      match task.dependsOn.find? (fun d => !(st1.completedTasks.contains d)) with
      | some d =>
        ⟨st1, .err ("dependency not met: task " ++ task.name ++ " depends on " ++ d
                    ++ " which has not completed"), 0, []⟩
      | none =>
        -- task-variable merge (a write through a nil environment panics)
        if task.vars ≠ [] ∧ st1.varEnv = none then ⟨st1, .panicked, 0, []⟩
        else
          let st2 := { st1 with varEnv := mergedVariables st1 task }
          -- `when` condition
          if task.whenCond ≠ "" ∧ ¬ evaluateCondition st2.varEnv task.whenCond then
            ⟨markCompleted st2 task.name, .ok, 0, []⟩
          else
            -- dry run: report and mark completed, never touch the executor
            if opts.dryRun then ⟨markCompleted st2 task.name, .ok, 0, []⟩
            else
              -- retry setup, as in the source
              let retries := if task.retries = 0 ∧ task.untilSuccess then 60
                             else task.retries
              let delaySec := if task.retryDelay = 0 ∧ retries > 0 then 5
                              else task.retryDelay
              let maxAttempts := retries + 1
              let lr := runAttempts task action timer delaySec maxAttempts
                          maxAttempts 1 0 0 []
              match lr.fin with
              | .noType => ⟨st2, .err "no executable task type defined", lr.calls, lr.waits⟩
              | .timedOut e =>
                ⟨st2, .err ("timeout after " ++ toString task.timeout ++ " seconds: "
                            ++ errMsg e), lr.calls, lr.waits⟩
              | .success out => finishTask task st2 out none lr.calls lr.waits
              | .failure out e => finishTask task st2 out (some e) lr.calls lr.waits

/-- `NewExecutor`'s state construction: in dry-run mode the variable
environment is a fresh map filled from the host's vars; otherwise it is
the host's `Vars` map itself — including the nil map when the host
declares no vars.  The run-once registry is ambient process state and is
passed through. -/
def newExecutorState (dryRun : Bool) (hostVars : Option Vars)
    (registry : List String) : ExecState :=
  if dryRun then
    { varEnv := some (hostVars.getD []), registers := [], completedTasks := [],
      runOnceExecuted := registry }
  else
    { varEnv := hostVars, registers := [], completedTasks := [],
      runOnceExecuted := registry }

/-! ## Hosts, groups, and SSH-default application -/

/-- `Host` (`port` is a Go `int`; `strict_host_key_check` is a nilable
boolean pointer; `vars` is a nilable map). -/
structure Host where
  name : String := ""
  address : String := ""
  hostname : String := ""
  port : Int := 0
  user : String := ""
  password : String := ""
  keyFile : String := ""
  keyPassword : String := ""
  useAgent : Bool := false
  strictHostKeyCheck : Option Bool := none
  vars : Option Vars := none
deriving DecidableEq, Repr

/-- `Group`. -/
structure Group where
  name : String := ""
  hosts : List Host := []
  parallelHosts : Bool := false
  order : Int := 0
  dependsOn : List String := []
deriving DecidableEq, Repr

/-- `SSHConfig` (inventory-wide defaults). -/
structure SSHConfig where
  user : String := ""
  password : String := ""
  keyFile : String := ""
  keyPassword : String := ""
  useAgent : Bool := false
  port : Int := 0
  strictHostKeyCheck : Option Bool := none
deriving DecidableEq, Repr

/-- The inventory part of `Config` (the playbook's task list is passed to
the scheduler model separately). -/
structure Config where
  hosts : List Host := []
  groups : List Group := []
  sshConfig : Option SSHConfig := none
deriving DecidableEq, Repr

/-- The shared name-resolution block (`if host.Name == "" { ... }`):
fall back to the hostname, then the address. -/
def resolveHostName (host : Host) : Host :=
  if host.name = "" then
    (if host.hostname ≠ "" then { host with name := host.hostname }
     else if host.address ≠ "" then { host with name := host.address }
     else host)
  else host

/-- The `strict_host_key_check` block of `applySSHDefaultsToHost`: an
explicitly set host value is kept; otherwise the ssh_config value is used;
otherwise it defaults to `true`. -/
def resolveStrict (host : Host) (dflt : Option Bool) : Host :=
  if host.strictHostKeyCheck = none then
    (match dflt with
     | some b => { host with strictHostKeyCheck := some b }
     | none => { host with strictHostKeyCheck := some true })
  else host

/-- `ensureSecureDefaults`, translated from the source: resolve the name,
and default `strict_host_key_check` to true when unset. -/
def ensureSecureDefaults (host : Host) : Host :=
  resolveStrict (resolveHostName host) none

/-- One per-field defaulting block of `applySSHDefaultsToHost`
(`if host.F == zero && defaults.F != zero { host.F = defaults.F }`). -/
def fillField (host : Host) (take : Prop) [Decidable take] (set : Host → Host) : Host :=
  if take then set host else host

/-- `applySSHDefaultsToHost`, translated from the source: resolve the
name, fill each empty connection field from the defaults, and resolve
`strict_host_key_check` (host value, else ssh_config value, else true). -/
def applySSHDefaultsToHost (host : Host) (defaults : SSHConfig) : Host :=
  let host := resolveHostName host
  let host := fillField host (host.user = "" ∧ defaults.user ≠ "")
      (fun h => { h with user := defaults.user })
  let host := fillField host (host.password = "" ∧ defaults.password ≠ "")
      (fun h => { h with password := defaults.password })
  let host := fillField host (host.keyFile = "" ∧ defaults.keyFile ≠ "")
      (fun h => { h with keyFile := defaults.keyFile })
  let host := fillField host (host.keyPassword = "" ∧ defaults.keyPassword ≠ "")
      (fun h => { h with keyPassword := defaults.keyPassword })
  let host := fillField host (¬ host.useAgent ∧ defaults.useAgent)
      (fun h => { h with useAgent := defaults.useAgent })
  let host := fillField host (host.port = 0 ∧ defaults.port ≠ 0)
      (fun h => { h with port := defaults.port })
  resolveStrict host defaults.strictHostKeyCheck

/-- Per-host defaulting step of `applySSHDefaults`: with an `ssh_config`
use it, otherwise just ensure the secure defaults. -/
def applyDefaultsStep (sshConfig : Option SSHConfig) (host : Host) : Host :=
  match sshConfig with
  | some d => applySSHDefaultsToHost host d
  | none => ensureSecureDefaults host

/-- `applySSHDefaults`, translated from the source: apply the per-host
step to every direct host and to every host of every group. -/
def applySSHDefaults (config : Config) : Config :=
  { config with
    hosts := config.hosts.map (applyDefaultsStep config.sshConfig),
    groups := config.groups.map
      (fun g => { g with hosts := g.hosts.map (applyDefaultsStep config.sshConfig) }) }

/-- All hosts a configuration mentions: direct hosts and group hosts. -/
def allHosts (config : Config) : List Host :=
  config.hosts ++ (config.groups.map Group.hosts).flatten

/-! ## The group scheduler -/

/-- The inner pass of the exchange sort in `executeWithGroups`
(`for j := i+1 ...; if a[j].Order < a[i].Order { swap }`): walk the tail
comparing with the current front element; each time a strictly smaller
element is found it becomes the current element and the previous current
element takes its place.  Returns the selected minimum and the remaining
elements in their final arrangement. -/
def selectOnce (cur : Group) : List Group → Group × List Group
  | [] => (cur, [])
  | x :: xs =>
    if x.order < cur.order then
      let r := selectOnce x xs
      (r.1, cur :: r.2)
    else
      let r := selectOnce cur xs
      (r.1, x :: r.2)

/-- The full exchange sort (`fuel` is called with the list length; the
inner pass preserves length, so the fuel suffices). -/
def sortGroupsFuel : Nat → List Group → List Group
  | 0, l => l
  | _ + 1, [] => []
  | fuel + 1, x :: xs =>
    let r := selectOnce x xs
    r.1 :: sortGroupsFuel fuel r.2

/-- The group ordering the scheduler executes: the source's in-place
double-loop exchange sort on a copy of the declared groups. -/
def sortGroups (l : List Group) : List Group :=
  sortGroupsFuel l.length l

/-- Result of a scheduler run: per-host results in dispatch order, the
names of hosts actually dispatched, and the terminal error if any. -/
structure SchedOut where
  results : List (String × Bool)
  dispatched : List String
  error : Option String
deriving DecidableEq, Repr

/-- `executeHostsSequential` (abstracted over per-host outcomes): run
hosts in order, stopping after the first failure. -/
def dispatchSequential (outcome : String → Bool) : List Host → List (String × Bool)
  | [] => []
  | h :: hs =>
    if outcome h.name then (h.name, true) :: dispatchSequential outcome hs
    else [(h.name, false)]

/-- `executeHostsParallel` (abstracted over per-host outcomes): all hosts
run to completion. -/
def dispatchParallel (outcome : String → Bool) (hosts : List Host) : List (String × Bool) :=
  hosts.map (fun h => (h.name, outcome h.name))

/-- The group loop of `executeWithGroups`: for each group in (already
sorted) order, verify the dependency groups have completed, dispatch its
hosts, and abort the run on any host failure; the whole run aborts with a
dependency error before dispatching a group whose dependency has not
completed. -/
def runGroups (outcome : String → Bool) (completed : List String) :
    List Group → SchedOut
  | [] => ⟨[], [], none⟩
  | g :: gs =>
    match g.dependsOn.find? (fun d => !(completed.contains d)) with
    | some d =>
      ⟨[], [], some ("group " ++ g.name ++ " depends on " ++ d
                     ++ " which has not completed")⟩
    | none =>
      let rs := if g.parallelHosts then dispatchParallel outcome g.hosts
                else dispatchSequential outcome g.hosts
      if rs.any (fun r => !r.2) then
        ⟨rs, rs.map Prod.fst, some ("group " ++ g.name ++ " failed")⟩
      else
        let rest := runGroups outcome (g.name :: completed) gs
        ⟨rs ++ rest.results, rs.map Prod.fst ++ rest.dispatched, rest.error⟩

/-- `executeWithGroups`: sort the declared groups and run the group loop
with an initially empty completed set. -/
def executeWithGroups (outcome : String → Bool) (config : Config) : SchedOut :=
  runGroups outcome [] (sortGroups config.groups)

/-! ## The run-once claiming protocol under interleaving

The source's run-once check is two separate critical sections: a read
under `RLock` and, when the task was not yet claimed, a write under
`Lock`.  The model below runs two workers, each executing exactly that
protocol, under an arbitrary interleaving; each step is one critical
section. -/

/-- Program counter of one worker in the run-once prologue. -/
inductive WPc where
  /-- about to read the registry under `RLock` -/
  | start
  /-- observed "not claimed"; about to take the write lock and claim -/
  | claimWrite
  /-- claimed; about to run the task body -/
  | runBody
  /-- ran the task body to completion -/
  | doneRan
  /-- observed "claimed"; skipped the task -/
  | doneSkipped
deriving DecidableEq, Repr

/-- Shared registry entry plus both workers' program counters. -/
structure RaceState where
  claimedFlag : Bool
  pc1 : WPc
  pc2 : WPc
deriving DecidableEq, Repr

/-- One worker step (one critical section of the source protocol). -/
def wStep (claimedFlag : Bool) : WPc → Bool × WPc
  | .start => if claimedFlag then (claimedFlag, .doneSkipped) else (claimedFlag, .claimWrite)
  | .claimWrite => (true, .runBody)
  | .runBody => (claimedFlag, .doneRan)
  | .doneRan => (claimedFlag, .doneRan)
  | .doneSkipped => (claimedFlag, .doneSkipped)

/-- Step the chosen worker (`false` = worker 1, `true` = worker 2). -/
def raceStep (s : RaceState) (who : Bool) : RaceState :=
  if who then
    let r := wStep s.claimedFlag s.pc2
    { s with claimedFlag := r.1, pc2 := r.2 }
  else
    let r := wStep s.claimedFlag s.pc1
    { s with claimedFlag := r.1, pc1 := r.2 }

/-- Run a schedule from the initial state (registry freshly reset, both
workers at the start of the run-once check). -/
def runSched (sched : List Bool) : RaceState :=
  sched.foldl raceStep ⟨false, .start, .start⟩

/-! ## Theorems -/

/-- C1: the claim requires the run-once registry check and claim to act as
a single atomic critical section, so that at most one host executes the
body of a `run_once` task.  The source performs the check under `RLock`
and the claim under a later, separate `Lock`; in the interleaving below
both workers pass the check before either claims, and both execute the
task body — the code races where the spec (and the code's own comment)
promise at-most-once execution. -/
theorem C1_run_once_check_then_set_race :
    (runSched [false, true, false, true, false, true]).pc1 = WPc.doneRan ∧
    (runSched [false, true, false, true, false, true]).pc2 = WPc.doneRan :=
  ⟨rfl, rfl⟩

/-- The inner exchange pass preserves the number of remaining groups. -/
theorem selectOnce_length (cur : Group) (l : List Group) :
    (selectOnce cur l).2.length = l.length := by
  induction l generalizing cur with
  | nil => rfl
  | cons x xs ih =>
    simp only [selectOnce]
    split
    · simpa using ih x
    · simpa using ih cur

/-- The inner exchange pass permutes its inputs. -/
theorem selectOnce_perm (cur : Group) (l : List Group) :
    ((selectOnce cur l).1 :: (selectOnce cur l).2).Perm (cur :: l) := by
  induction l generalizing cur with
  | nil => simp [selectOnce]
  | cons x xs ih =>
    simp only [selectOnce]
    split
    · exact (List.Perm.swap cur (selectOnce x xs).1 (selectOnce x xs).2).trans
        ((ih x).cons cur)
    · exact ((List.Perm.swap x (selectOnce cur xs).1 (selectOnce cur xs).2).trans
        ((ih cur).cons x)).trans (List.Perm.swap cur x xs)

/-- The inner exchange pass selects a minimum-order group. -/
theorem selectOnce_min (cur : Group) (l : List Group) :
    (selectOnce cur l).1.order ≤ cur.order ∧
    ∀ y ∈ (selectOnce cur l).2, (selectOnce cur l).1.order ≤ y.order := by
  induction l generalizing cur with
  | nil => exact ⟨le_refl _, by simp [selectOnce]⟩
  | cons x xs ih =>
    simp only [selectOnce]
    split
    · next hlt =>
      obtain ⟨h1, h2⟩ := ih x
      refine ⟨le_trans h1 (le_of_lt hlt), ?_⟩
      intro y hy
      simp only [List.mem_cons] at hy
      rcases hy with rfl | hy
      · exact le_trans h1 (le_of_lt hlt)
      · exact h2 y hy
    · next hge =>
      obtain ⟨h1, h2⟩ := ih cur
      refine ⟨h1, ?_⟩
      intro y hy
      simp only [List.mem_cons] at hy
      rcases hy with rfl | hy
      · exact le_trans h1 (le_of_not_lt hge)
      · exact h2 y hy

/-- The fueled exchange sort, run with enough fuel, sorts ascending by
`order` and permutes the input. -/
theorem sortGroupsFuel_sorted_perm :
    ∀ (fuel : Nat) (l : List Group), l.length ≤ fuel →
    (sortGroupsFuel fuel l).Pairwise (fun g h => g.order ≤ h.order) ∧
    (sortGroupsFuel fuel l).Perm l := by
  intro fuel
  induction fuel with
  | zero =>
    intro l hl
    have : l = [] := List.eq_nil_of_length_eq_zero (Nat.le_zero.mp hl)
    subst this
    simp [sortGroupsFuel]
  | succ f ih =>
    intro l hl
    match l with
    | [] => simp [sortGroupsFuel]
    | x :: xs =>
      simp only [sortGroupsFuel]
      have hlen : (selectOnce x xs).2.length ≤ f := by
        rw [selectOnce_length]
        simpa using Nat.le_of_succ_le_succ hl
      obtain ⟨hs, hp⟩ := ih _ hlen
      have hperm : ((selectOnce x xs).1 :: sortGroupsFuel f (selectOnce x xs).2).Perm
          (x :: xs) := (hp.cons _).trans (selectOnce_perm x xs)
      refine ⟨List.Pairwise.cons ?_ hs, hperm⟩
      intro y hy
      exact (selectOnce_min x xs).2 y (hp.mem_iff.mp hy)

/-- C2 (amended): the scheduler executes the declared groups in ascending
order of their integer `order` field (the executed sequence is a
permutation of the declared groups sorted so that orders never decrease).
The exchange sort the source uses is not stable, so two groups with equal
`order` may execute in either relative order — see the counterexample. -/
theorem C2_groups_execute_in_ascending_order (l : List Group) :
    (sortGroups l).Pairwise (fun g h => g.order ≤ h.order) ∧ (sortGroups l).Perm l :=
  sortGroupsFuel_sorted_perm l.length l (le_refl _)

/-- C2 counterexample: with groups declared `a` (order 2), `b` (order 2),
`c` (order 1), the scheduler's sort yields the sequence `c, b, a`: among
the equal-order groups the one declared first (`a`) runs last, refuting
the claimed stability (which demands `c, a, b`). -/
theorem C2_equal_order_groups_not_stable :
    (sortGroups [{ name := "a", order := 2 }, { name := "b", order := 2 },
                 { name := "c", order := 1 }]).map Group.name = ["c", "b", "a"] ∧
    (["c", "b", "a"] : List String) ≠ ["c", "a", "b"] :=
  ⟨rfl, by decide⟩

/-- Name resolution does not touch `strict_host_key_check`. -/
theorem strict_resolveHostName (h : Host) :
    (resolveHostName h).strictHostKeyCheck = h.strictHostKeyCheck := by
  unfold resolveHostName
  repeat' split
  all_goals rfl

/-- `resolveStrict` computes host value, else default, else `true`. -/
theorem strict_resolveStrict (h : Host) (dflt : Option Bool) :
    (resolveStrict h dflt).strictHostKeyCheck
      = some (h.strictHostKeyCheck.getD (dflt.getD true)) := by
  cases hs : h.strictHostKeyCheck <;> cases dflt <;>
    simp [resolveStrict, hs]

/-- Field defaulting does not touch `strict_host_key_check` when the
update function leaves it alone. -/
theorem strict_fillField (h : Host) (c : Prop) [Decidable c] (f : Host → Host)
    (hf : ∀ x, (f x).strictHostKeyCheck = x.strictHostKeyCheck) :
    (fillField h c f).strictHostKeyCheck = h.strictHostKeyCheck := by
  unfold fillField
  split <;> simp [hf]

/-- `applySSHDefaultsToHost` always resolves `strict_host_key_check`:
the host's explicit value wins, else the ssh_config value, else `true`. -/
theorem strict_applySSHDefaultsToHost (h : Host) (d : SSHConfig) :
    (applySSHDefaultsToHost h d).strictHostKeyCheck
      = some (h.strictHostKeyCheck.getD (d.strictHostKeyCheck.getD true)) := by
  simp only [applySSHDefaultsToHost, strict_resolveStrict, fillField,
    apply_ite Host.strictHostKeyCheck, ite_self, strict_resolveHostName]

/-- `ensureSecureDefaults` always resolves `strict_host_key_check`:
the host's explicit value wins, else `true`. -/
theorem strict_ensureSecureDefaults (h : Host) :
    (ensureSecureDefaults h).strictHostKeyCheck
      = some (h.strictHostKeyCheck.getD true) := by
  unfold ensureSecureDefaults
  rw [strict_resolveStrict, strict_resolveHostName]
  rfl

/-- The per-host defaulting step always yields a set flag. -/
theorem strict_applyDefaultsStep (sshConfig : Option SSHConfig) (h : Host) :
    (applyDefaultsStep sshConfig h).strictHostKeyCheck.isSome = true := by
  cases sshConfig with
  | none => simp [applyDefaultsStep, strict_ensureSecureDefaults]
  | some d => simp [applyDefaultsStep, strict_applySSHDefaultsToHost]

/-- C10: after `applySSHDefaults`, every host of the configuration —
listed directly or inside any group — has a non-nil
`strict_host_key_check`; an explicit host-level value is preserved,
otherwise the `ssh_config` value is inherited, otherwise it defaults to
`true`. -/
theorem C10_strict_host_key_check_always_resolved :
    (∀ cfg : Config,
        ((allHosts (applySSHDefaults cfg)).all
          (fun h => h.strictHostKeyCheck.isSome)) = true) ∧
    (∀ (h : Host) (d : SSHConfig),
        (applySSHDefaultsToHost h d).strictHostKeyCheck
          = some (h.strictHostKeyCheck.getD (d.strictHostKeyCheck.getD true))) ∧
    (∀ h : Host, (ensureSecureDefaults h).strictHostKeyCheck
          = some (h.strictHostKeyCheck.getD true)) := by
  refine ⟨?_, strict_applySSHDefaultsToHost, strict_ensureSecureDefaults⟩
  intro cfg
  rw [List.all_eq_true]
  intro h hmem
  simp only [allHosts, applySSHDefaults, List.mem_append, List.mem_flatten,
    List.mem_map] at hmem
  rcases hmem with ⟨h0, _, rfl⟩ | ⟨l, ⟨g1, ⟨g0, _, rfl⟩, rfl⟩, hh⟩
  · exact strict_applyDefaultsStep _ _
  · simp only [List.mem_map] at hh
    obtain ⟨h0, _, rfl⟩ := hh
    exact strict_applyDefaultsStep _ _

/-- A string built around `sub` contains `sub`. -/
theorem strContains_of_parts (pre sub post : String) :
    strContains (pre ++ sub ++ post) sub = true := by
  simp only [strContains, decide_eq_true_eq]
  exact ⟨pre.data, post.data, rfl⟩

/-- The dependency error message contains `dependency not met`. -/
theorem depMsg_contains (n d : String) :
    strContains ("dependency not met: task " ++ n ++ " depends on " ++ d
      ++ " which has not completed") "dependency not met" = true := by
  simp only [strContains, decide_eq_true_eq]
  exact ⟨[], (": task " ++ n ++ " depends on " ++ d ++ " which has not completed").data, rfl⟩

/-- C3 (amended): for every task that is not skipped by the delegation or
run-once checks and whose `depends_on` list contains a name absent from
the host's completed-task set, `ExecuteTask` returns a
dependency-not-met error immediately — no retry, no execution attempt —
and leaves the variable environment, completed-task set and registers
unchanged; however, when `run_once` is set the run-once registry has
already been claimed by the time the error is returned (the source claims
the registry before checking dependencies). -/
theorem C3_dependency_error_immediate_no_side_effect (opts : ExecOpts)
    (hostName : String) (task : Task) (action : Nat → String × Option GoErr)
    (timer : Nat → Bool) (st : ExecState)
    (hdel : task.delegateTo = "" ∨ task.delegateTo = hostName ∨ task.delegateTo = "localhost")
    (honce : task.runOnce = false ∨ task.name ∉ st.runOnceExecuted)
    (hdep : ∃ d ∈ task.dependsOn, d ∉ st.completedTasks) :
    ∃ msg, strContains msg "dependency not met" = true ∧
      executeTask opts hostName task action timer st =
        ⟨{ st with runOnceExecuted :=
             if task.runOnce then insertStr st.runOnceExecuted task.name
             else st.runOnceExecuted },
          TaskOutcome.err msg, 0, []⟩ := by
  have hc1 : ¬(task.delegateTo ≠ "" ∧ task.delegateTo ≠ hostName ∧
      task.delegateTo ≠ "localhost") := by
    rcases hdel with h | h | h <;> simp [h]
  obtain ⟨d, hdmem, hdnot⟩ := hdep
  have hfind : task.dependsOn.find?
      (fun x => !(st.completedTasks.contains x)) ≠ none := by
    rw [Ne, List.find?_eq_none]
    push_neg
    exact ⟨d, hdmem, by simp [hdnot]⟩
  obtain ⟨d0, hfind0⟩ := Option.ne_none_iff_exists'.mp hfind
  refine ⟨"dependency not met: task " ++ task.name ++ " depends on " ++ d0
    ++ " which has not completed", depMsg_contains _ _, ?_⟩
  cases hro : task.runOnce with
  | false =>
    have hc2 : ¬(task.runOnce = true ∧ task.name ∈ st.runOnceExecuted) := by
      simp [hro]
    by_cases hrw : task.delegateTo = "localhost" ∧ task.command ≠ ""
    · simp only [executeTask, if_neg hc1, if_pos hrw, hro, if_neg hc2]
      simp only [Bool.false_eq_true, if_false, hfind0]
      simp
    · simp only [executeTask, if_neg hc1, if_neg hrw, hro, if_neg hc2]
      simp only [Bool.false_eq_true, if_false, hfind0]
      simp
  | true =>
    have hnm : task.name ∉ st.runOnceExecuted := by
      rcases honce with h | h
      · rw [hro] at h; cases h
      · exact h
    have hc2 : ¬(task.runOnce = true ∧ task.name ∈ st.runOnceExecuted) := by
      simp [hnm]
    by_cases hrw : task.delegateTo = "localhost" ∧ task.command ≠ ""
    · simp only [executeTask, if_neg hc1, if_pos hrw, hro, if_neg hc2]
      simp only [if_true, hfind0]
      simp [hnm]
    · simp only [executeTask, if_neg hc1, if_neg hrw, hro, if_neg hc2]
      simp only [if_true, hfind0]
      simp [hnm]

/-- C3 counterexample: a `run_once` task with an unmet dependency returns
the dependency error, but the run-once registry has been mutated (the task
was claimed) before the check ran — a side effect the claim rules out. -/
theorem C3_registry_claimed_despite_dependency_error :
    (executeTask {} "h1"
        { name := "t", command := "c", runOnce := true, dependsOn := ["missing"] }
        (fun _ => ("", some (.msg "boom"))) (fun _ => false) {}).outcome
      = TaskOutcome.err
          "dependency not met: task t depends on missing which has not completed" ∧
    (executeTask {} "h1"
        { name := "t", command := "c", runOnce := true, dependsOn := ["missing"] }
        (fun _ => ("", some (.msg "boom"))) (fun _ => false) {}).state.runOnceExecuted
      = ["t"] ∧
    ({} : ExecState).runOnceExecuted = [] :=
  ⟨rfl, rfl, rfl⟩

/-- With a never-firing timeout timer and every attempt failing, the
retry loop runs every remaining attempt, sleeping the retry delay between
attempts, and ends with the last attempt's failure. -/
theorem runAttempts_all_fail (task : Task) (action : Nat → String × Option GoErr)
    (timer : Nat → Bool) (delaySec maxAttempts : Nat)
    (hkind : ¬ taskKind task = .noType)
    (htimer : ∀ k, timer k = false)
    (hfail : ∀ k, ((attemptOnce task action k).2).isSome = true) :
    ∀ (fuel attempt tick calls : Nat) (waits : List Nat),
      1 ≤ attempt → attempt ≤ maxAttempts → maxAttempts - attempt < fuel →
      ∃ e, (attemptOnce task action maxAttempts).2 = some e ∧
        runAttempts task action timer delaySec maxAttempts fuel attempt tick calls waits
          = ⟨.failure (attemptOnce task action maxAttempts).1 e,
             calls + (maxAttempts + 1 - attempt),
             waits ++ List.replicate (maxAttempts - attempt) delaySec⟩ := by
  intro fuel
  induction fuel with
  | zero => intro attempt tick calls waits h1 h2 h3; omega
  | succ f ih =>
    intro attempt tick calls waits h1 h2 h3
    obtain ⟨e, he⟩ := Option.isSome_iff_exists.mp (hfail attempt)
    by_cases hlast : maxAttempts ≤ attempt
    · have hEq : attempt = maxAttempts := le_antisymm h2 hlast
      subst hEq
      refine ⟨e, he, ?_⟩
      simp only [runAttempts, if_neg hkind, he, htimer, Bool.and_false, if_pos hlast]
      have h4 : attempt + 1 - attempt = 1 := by omega
      have h5 : attempt - attempt = 0 := by omega
      simp [h4, h5]
    · have hlt : attempt < maxAttempts := lt_of_not_ge hlast
      obtain ⟨e2, he2, hrec⟩ := ih (attempt + 1)
        (if task.timeout > 0 then
          (if task.timeout > 0 then tick + 1 else tick) + 1
         else (if task.timeout > 0 then tick + 1 else tick))
        (calls + 1) (waits ++ [delaySec]) (by omega) (by omega) (by omega)
      refine ⟨e2, he2, ?_⟩
      simp only [runAttempts, if_neg hkind, he, htimer, Bool.and_false, if_neg hlast]
      rw [hrec]
      have h4 : calls + 1 + (maxAttempts + 1 - (attempt + 1)) = calls + (maxAttempts + 1 - attempt) := by omega
      have h5 : maxAttempts - attempt = (maxAttempts - (attempt + 1)) + 1 := by omega
      rw [h4, h5]
      simp [List.append_assoc, List.replicate_succ]

/-- `ExecuteTask` on a task that reaches the retry loop (gates passed,
not a dry run) whose attempts all fail, with a never-firing timer:
the loop runs `retries + 1` attempts (with the `until_success` and
retry-delay defaults computed as in the source) and hands the last error
to the register/failure tail. -/
theorem executeTask_all_fail (opts : ExecOpts) (hostName : String) (task : Task)
    (action : Nat → String × Option GoErr) (timer : Nat → Bool) (st : ExecState)
    (hdel : task.delegateTo = "")
    (honce : task.runOnce = false ∨ task.name ∉ st.runOnceExecuted)
    (hdep : ∀ d ∈ task.dependsOn, d ∈ st.completedTasks)
    (hvars : task.vars = [] ∨ st.varEnv ≠ none)
    (hwhen : task.whenCond = "" ∨
      evaluateCondition (mergedVariables st task) task.whenCond = true)
    (hdry : opts.dryRun = false)
    (hkind : ¬ taskKind task = .noType)
    (htimer : ∀ k, timer k = false)
    (hfail : ∀ k, ((attemptOnce task action k).2).isSome = true) :
    ∃ e, (attemptOnce task action
            ((if task.retries = 0 ∧ task.untilSuccess then 60 else task.retries) + 1)).2
          = some e ∧
      executeTask opts hostName task action timer st =
        finishTask task
          { varEnv := mergedVariables st task, registers := st.registers,
            completedTasks := st.completedTasks,
            runOnceExecuted := if task.runOnce then insertStr st.runOnceExecuted task.name
                               else st.runOnceExecuted }
          (attemptOnce task action
            ((if task.retries = 0 ∧ task.untilSuccess then 60 else task.retries) + 1)).1
          (some e)
          ((if task.retries = 0 ∧ task.untilSuccess then 60 else task.retries) + 1)
          (List.replicate (if task.retries = 0 ∧ task.untilSuccess then 60 else task.retries)
            (if task.retryDelay = 0 ∧
                (if task.retries = 0 ∧ task.untilSuccess then 60 else task.retries) > 0
             then 5 else task.retryDelay)) := by
  set R := if task.retries = 0 ∧ task.untilSuccess then 60 else task.retries with hR
  set D := if task.retryDelay = 0 ∧ R > 0 then 5 else task.retryDelay with hD
  obtain ⟨e, he, hrec⟩ := runAttempts_all_fail task action timer D (R + 1)
    hkind htimer hfail (R + 1) 1 0 0 [] (by omega) (by omega) (by omega)
  refine ⟨e, he, ?_⟩
  have hc1 : ¬(task.delegateTo ≠ "" ∧ task.delegateTo ≠ hostName ∧
      task.delegateTo ≠ "localhost") := by simp [hdel]
  have hc2 : ¬(task.delegateTo = "localhost" ∧ task.command ≠ "") := by simp [hdel]
  have hfind : task.dependsOn.find? (fun x => !(st.completedTasks.contains x)) = none := by
    rw [List.find?_eq_none]
    intro x hx
    simp [hdep x hx]
  cases hro : task.runOnce with
  | false =>
    have hc3 : ¬(task.runOnce = true ∧ task.name ∈ st.runOnceExecuted) := by simp [hro]
    simp only [executeTask, if_neg hc1, if_neg hc2, if_neg hc3, hro,
      Bool.false_eq_true, if_false, hfind]
    rw [if_neg (by simp)]
    rw [if_neg (by rcases hvars with h | h <;> simp [h])]
    rw [if_neg (by rcases hwhen with h | h <;> simp [h])]
    rw [if_neg (by simp [hdry])]
    rw [← hR, ← hD, hrec]
    have h4 : 0 + (R + 1 + 1 - 1) = R + 1 := by omega
    have h5 : R + 1 - 1 = R := by omega
    simp [h4, h5, hro]
  | true =>
    have hnm : task.name ∉ st.runOnceExecuted := by
      rcases honce with h | h
      · rw [hro] at h; cases h
      · exact h
    have hc3 : ¬(task.runOnce = true ∧ task.name ∈ st.runOnceExecuted) := by simp [hnm]
    have hwhen2 : task.whenCond = "" ∨
        evaluateCondition
          (mergedVariables
            { varEnv := st.varEnv, registers := st.registers,
              completedTasks := st.completedTasks,
              runOnceExecuted := insertStr st.runOnceExecuted task.name } task)
          task.whenCond = true := hwhen
    simp only [executeTask, if_neg hc1, if_neg hc2, if_neg hc3, hro, if_true, hfind]
    rw [if_neg (by simp [hnm])]
    rw [if_neg (by rcases hvars with h | h <;> simp [h])]
    rw [if_neg (by rcases hwhen2 with h | h <;> simp [h])]
    rw [if_neg (by simp [hdry])]
    rw [← hR, ← hD, hrec]
    have h4 : 0 + (R + 1 + 1 - 1) = R + 1 := by omega
    have h5 : R + 1 - 1 = R := by omega
    simp [h4, h5, hro]
    rfl

/-- C6 (amended): for every command, shell, script or local-action
execution attempt, the attempt succeeds exactly when the underlying call
returns no error, or returns an error whose extracted exit status is
non-negative and a member of `allowed_exit_codes`; extraction handles the
structured `ssh.ExitError` type and free-text patterns such as
`exit status N`; an error with no parseable exit code is never treated as
allowed.  (Copy and wait_for attempts never consult
`allowed_exit_codes` — see the counterexample.) -/
theorem C6_allowed_exit_codes_success (task : Task)
    (action : Nat → String × Option GoErr) (n : Nat)
    (hkind : checksAllowed (taskKind task) = true) :
    ((attemptOnce task action n).2 = none ↔
      ((action n).2 = none ∨
        ∃ e, (action n).2 = some e ∧ 0 ≤ extractExitCode e ∧
          extractExitCode e ∈ task.allowedExitCodes)) ∧
    (∀ m : Int, extractExitCode (.exitError m) = m) ∧
    extractExitCode (.msg "command failed: exit status 1") = 1 ∧
    (∀ (e : GoErr) (codes : List Int), extractExitCode e < 0 →
      isAllowedExitCode (some e) codes = false) := by
  refine ⟨?_, fun m => rfl, rfl, ?_⟩
  · cases hact : (action n).2 with
    | none => simp [attemptOnce, hact]
    | some e =>
      simp only [attemptOnce, hact, hkind, isAllowedExitCode, Option.isSome_some,
        Bool.true_and, true_and]
      by_cases hemp : task.allowedExitCodes.isEmpty
      · have : task.allowedExitCodes = [] := List.isEmpty_iff.mp hemp
        simp [hemp, this, hact]
      · by_cases hneg : extractExitCode e < 0
        · simp [hemp, hneg, hact]
        · by_cases hmem : extractExitCode e ∈ task.allowedExitCodes
          · simp [hemp, hneg, hmem, hact]
            omega
          · simp [hemp, hneg, hmem, hact]
  · intro e codes hneg
    simp only [isAllowedExitCode]
    split <;> simp [hneg]

/-- C6 witness: a command attempt with `allowed_exit_codes = [0, 1]` whose
call fails with free-text exit status 1 succeeds (scenario D). -/
theorem C6_allowed_exit_codes_success_witness :
    (attemptOnce { name := "t", command := "c", allowedExitCodes := [0, 1] }
      (fun _ => ("", some (.msg "command failed: exit status 1"))) 1).2 = none :=
  (C6_allowed_exit_codes_success
      { name := "t", command := "c", allowedExitCodes := [0, 1] }
      (fun _ => ("", some (.msg "command failed: exit status 1"))) 1
      (by decide)).1.mpr
    (Or.inr ⟨.msg "command failed: exit status 1", rfl, by decide, by decide⟩)

/-- C6 counterexample: a copy task whose underlying call fails with a
parseable exit status of 1, with `allowed_exit_codes = [0, 1]`, still
fails — the claim's "for every task execution attempt" is refuted because
the allowed-exit-code check is only wired to the command, shell, script
and local-action cases. -/
theorem C6_copy_ignores_allowed_exit_codes :
    (executeTask {} "h1"
        { name := "t", copy := some { src := "/s", dest := "/d" },
          allowedExitCodes := [0, 1] }
        (fun _ => ("", some (.msg "command failed: Process exited with status 1")))
        (fun _ => false) {}).outcome
      = TaskOutcome.err "command failed: Process exited with status 1" ∧
    extractExitCode (.msg "command failed: Process exited with status 1") = 1 ∧
    (1 : Int) ∈ [(0 : Int), 1] :=
  ⟨rfl, rfl, by decide⟩

/-- The register/failure tail returns the loop call count unchanged. -/
theorem finishTask_actionCalls (task : Task) (st : ExecState) (out : String)
    (errOpt : Option GoErr) (calls : Nat) (waits : List Nat) :
    (finishTask task st out errOpt calls waits).actionCalls = calls := by
  simp only [finishTask, apply_ite TaskRun.actionCalls]
  cases errOpt <;> simp [apply_ite TaskRun.actionCalls]

/-- The register/failure tail returns the recorded waits unchanged. -/
theorem finishTask_waits (task : Task) (st : ExecState) (out : String)
    (errOpt : Option GoErr) (calls : Nat) (waits : List Nat) :
    (finishTask task st out errOpt calls waits).waits = waits := by
  simp only [finishTask, apply_ite TaskRun.waits]
  cases errOpt <;> simp [apply_ite TaskRun.waits]

/-- After a final failure, without `ignore_error` and without a register
panic, the last error is returned. -/
theorem finishTask_outcome_err (task : Task) (st : ExecState) (out : String)
    (e : GoErr) (calls : Nat) (waits : List Nat)
    (hreg : task.register = "" ∨ st.varEnv ≠ none)
    (hign : task.ignoreError = false) :
    (finishTask task st out (some e) calls waits).outcome = .err (errMsg e) := by
  simp only [finishTask]
  rw [if_neg (by rcases hreg with h | h <;> simp [h])]
  simp [hign]

/-- Inserting marks membership. -/
theorem mem_insertStr (l : List String) (s : String) : s ∈ insertStr l s := by
  unfold insertStr
  split
  · assumption
  · exact List.mem_cons_self _ _

/-- After a final failure with `ignore_error`, the task reports no error
and is marked completed. -/
theorem finishTask_outcome_ignored (task : Task) (st : ExecState) (out : String)
    (e : GoErr) (calls : Nat) (waits : List Nat)
    (hreg : task.register = "" ∨ st.varEnv ≠ none)
    (hign : task.ignoreError = true) :
    (finishTask task st out (some e) calls waits).outcome = .ok ∧
    task.name ∈ (finishTask task st out (some e) calls waits).state.completedTasks := by
  simp only [finishTask]
  rw [if_neg (by rcases hreg with h | h <;> simp [h])]
  simp only [hign, if_true]
  refine ⟨by simp, ?_⟩
  simp [markCompleted]
  exact mem_insertStr _ _

/-- C4: for every task executed outside dry-run whose attempts all fail
(with a never-firing timeout timer), the number of execution attempts is
exactly `retries + 1`, where `retries` defaults to 60 when
`until_success` is set with no explicit `retries`; between attempts the
executor sleeps the retry delay, which defaults to 5 seconds when
`retries > 0` and no explicit `retry_delay` is given; and the final
attempt's error is returned. -/
theorem C4_retry_policy (opts : ExecOpts) (hostName : String) (task : Task)
    (action : Nat → String × Option GoErr) (timer : Nat → Bool) (st : ExecState)
    (hdel : task.delegateTo = "")
    (honce : task.runOnce = false ∨ task.name ∉ st.runOnceExecuted)
    (hdep : ∀ d ∈ task.dependsOn, d ∈ st.completedTasks)
    (hvars : task.vars = [] ∨ st.varEnv ≠ none)
    (hwhen : task.whenCond = "" ∨
      evaluateCondition (mergedVariables st task) task.whenCond = true)
    (hdry : opts.dryRun = false)
    (hkind : ¬ taskKind task = .noType)
    (htimer : ∀ k, timer k = false)
    (hfail : ∀ k, ((attemptOnce task action k).2).isSome = true)
    (hreg : task.register = "" ∨ mergedVariables st task ≠ none)
    (hign : task.ignoreError = false) :
    (executeTask opts hostName task action timer st).actionCalls
        = (if task.retries = 0 ∧ task.untilSuccess then 60 else task.retries) + 1 ∧
    (executeTask opts hostName task action timer st).waits
        = List.replicate (if task.retries = 0 ∧ task.untilSuccess then 60 else task.retries)
            (if task.retryDelay = 0 ∧
                (if task.retries = 0 ∧ task.untilSuccess then 60 else task.retries) > 0
             then 5 else task.retryDelay) ∧
    ∃ e, (attemptOnce task action
            ((if task.retries = 0 ∧ task.untilSuccess then 60 else task.retries) + 1)).2
          = some e ∧
      (executeTask opts hostName task action timer st).outcome = TaskOutcome.err (errMsg e) := by
  obtain ⟨e, he, heq⟩ := executeTask_all_fail opts hostName task action timer st
    hdel honce hdep hvars hwhen hdry hkind htimer hfail
  rw [heq]
  refine ⟨finishTask_actionCalls _ _ _ _ _ _, finishTask_waits _ _ _ _ _ _, e, he, ?_⟩
  exact finishTask_outcome_err _ _ _ _ _ _ (by simpa using hreg) hign

/-- C4 witness (scenario C): `retries = 3, retry_delay = 1` with an
always-failing action gives exactly 4 attempts, three 1-second waits, and
the final error. -/
theorem C4_retry_policy_witness :
    (executeTask {} "h1" { name := "t", command := "c", retries := 3, retryDelay := 1 }
        (fun _ => ("", some (.msg "boom"))) (fun _ => false) {}).actionCalls = 4 ∧
    (executeTask {} "h1" { name := "t", command := "c", retries := 3, retryDelay := 1 }
        (fun _ => ("", some (.msg "boom"))) (fun _ => false) {}).waits = [1, 1, 1] ∧
    (executeTask {} "h1" { name := "t", command := "c", retries := 3, retryDelay := 1 }
        (fun _ => ("", some (.msg "boom"))) (fun _ => false) {}).outcome
      = TaskOutcome.err "boom" := by
  obtain ⟨h1, h2, e, he, h3⟩ := C4_retry_policy {} "h1"
    { name := "t", command := "c", retries := 3, retryDelay := 1 }
    (fun _ => ("", some (.msg "boom"))) (fun _ => false) {}
    rfl (Or.inl rfl) (by simp) (Or.inl rfl) (Or.inl rfl) rfl (by decide)
    (fun k => rfl) (fun k => rfl) (Or.inl rfl) rfl
  obtain rfl : GoErr.msg "boom" = e := Option.some.inj he
  exact ⟨by simpa using h1, by simpa using h2, by simpa using h3⟩

/-- C7: for every task with `ignore_error = true` whose retry loop ends
in failure (every attempt fails, timer never fires), `ExecuteTask`
returns no error and marks the task completed in the host's
completed-task set, so execution of the host's remaining tasks
continues. -/
theorem C7_ignore_error_continues (opts : ExecOpts) (hostName : String) (task : Task)
    (action : Nat → String × Option GoErr) (timer : Nat → Bool) (st : ExecState)
    (hdel : task.delegateTo = "")
    (honce : task.runOnce = false ∨ task.name ∉ st.runOnceExecuted)
    (hdep : ∀ d ∈ task.dependsOn, d ∈ st.completedTasks)
    (hvars : task.vars = [] ∨ st.varEnv ≠ none)
    (hwhen : task.whenCond = "" ∨
      evaluateCondition (mergedVariables st task) task.whenCond = true)
    (hdry : opts.dryRun = false)
    (hkind : ¬ taskKind task = .noType)
    (htimer : ∀ k, timer k = false)
    (hfail : ∀ k, ((attemptOnce task action k).2).isSome = true)
    (hreg : task.register = "" ∨ mergedVariables st task ≠ none)
    (hign : task.ignoreError = true) :
    (executeTask opts hostName task action timer st).outcome = TaskOutcome.ok ∧
    task.name ∈ (executeTask opts hostName task action timer st).state.completedTasks := by
  obtain ⟨e, he, heq⟩ := executeTask_all_fail opts hostName task action timer st
    hdel honce hdep hvars hwhen hdry hkind htimer hfail
  rw [heq]
  exact finishTask_outcome_ignored _ _ _ _ _ _ (by simpa using hreg) hign

/-- C7 witness: a failing command task with `ignore_error` returns ok
and is marked completed. -/
theorem C7_ignore_error_continues_witness :
    (executeTask {} "h1" { name := "t", command := "c", ignoreError := true }
        (fun _ => ("", some (.msg "boom"))) (fun _ => false) {}).outcome = TaskOutcome.ok ∧
    "t" ∈ (executeTask {} "h1" { name := "t", command := "c", ignoreError := true }
        (fun _ => ("", some (.msg "boom"))) (fun _ => false) {}).state.completedTasks :=
  C7_ignore_error_continues {} "h1" { name := "t", command := "c", ignoreError := true }
    (fun _ => ("", some (.msg "boom"))) (fun _ => false) {}
    rfl (Or.inl rfl) (by simp) (Or.inl rfl) (Or.inl rfl) rfl (by decide)
    (fun k => rfl) (fun k => rfl) (Or.inl rfl) rfl

/-- String append acts as list append on the character data. -/
theorem strData_append (a b : String) : (a ++ b).data = a.data ++ b.data := rfl

/-- C3 witness: a task with a missing dependency (no run_once) errors with
no state change at all. -/
theorem C3_dependency_witness :
    ∃ msg, strContains msg "dependency not met" = true ∧
      executeTask {} "h1" { name := "t", command := "c", dependsOn := ["missing"] }
          (fun _ => ("", some (.msg "boom"))) (fun _ => false) {} =
        ⟨{}, TaskOutcome.err msg, 0, []⟩ := by
  have h := C3_dependency_error_immediate_no_side_effect {} "h1"
    { name := "t", command := "c", dependsOn := ["missing"] }
    (fun _ => ("", some (.msg "boom"))) (fun _ => false) {}
    (Or.inl rfl) (Or.inl rfl) ⟨"missing", by decide, by decide⟩
  simpa using h

/-- C8: whenever the scheduler's group loop reaches a group whose
`depends_on` names a group not in the completed set at that time
(including one never defined), it aborts the remaining run with an error
containing `depends on`, dispatching no host of that group (or any later
group). -/
theorem C8_group_dependency_aborts (outcome : String → Bool) (completed : List String)
    (g : Group) (gs : List Group)
    (hdep : ∃ d ∈ g.dependsOn, d ∉ completed) :
    ∃ msg, strContains msg "depends on" = true ∧
      runGroups outcome completed (g :: gs) = ⟨[], [], some msg⟩ := by
  obtain ⟨d, hdmem, hdnot⟩ := hdep
  have hfind : g.dependsOn.find? (fun x => !(completed.contains x)) ≠ none := by
    rw [Ne, List.find?_eq_none]
    push_neg
    exact ⟨d, hdmem, by simp [hdnot]⟩
  obtain ⟨d0, hfind0⟩ := Option.ne_none_iff_exists'.mp hfind
  refine ⟨"group " ++ g.name ++ " depends on " ++ d0 ++ " which has not completed", ?_, ?_⟩
  · simp only [strContains, decide_eq_true_eq]
    refine ⟨"group ".data ++ g.name.data ++ [' '],
      [' '] ++ d0.data ++ " which has not completed".data, ?_⟩
    have h1 : ("group " ++ g.name ++ " depends on " ++ d0
        ++ " which has not completed").data
        = "group ".data ++ (g.name.data ++ (" depends on ".data
          ++ (d0.data ++ " which has not completed".data))) := by
      simp [strData_append]
    have h2 : (" depends on " : String).data = [' '] ++ "depends on".data ++ [' '] := by
      decide
    rw [h1, h2]
    simp [List.append_assoc]
  · simp only [runGroups, hfind0]

/-- C8 witness (scenario E): `g2` depends on the never-defined `g1`; the
run errors with a `depends on` message and zero dispatched hosts. -/
theorem C8_group_dependency_aborts_witness :
    ∃ msg, strContains msg "depends on" = true ∧
      runGroups (fun _ => true) []
        [{ name := "g2", dependsOn := ["g1"], hosts := [{ name := "h1" }] }]
        = ⟨[], [], some msg⟩ :=
  C8_group_dependency_aborts (fun _ => true) []
    { name := "g2", dependsOn := ["g1"], hosts := [{ name := "h1" }] } []
    ⟨"g1", by decide, by decide⟩

/-- The retry loop exits successfully when the first attempt succeeds. -/
theorem runAttempts_first_success (task : Task) (action : Nat → String × Option GoErr)
    (timer : Nat → Bool) (delaySec maxAttempts fuel tick calls : Nat) (waits : List Nat)
    (hkind : ¬ taskKind task = .noType)
    (hsucc : (attemptOnce task action 1).2 = none) :
    runAttempts task action timer delaySec maxAttempts (fuel + 1) 1 tick calls waits
      = ⟨.success (attemptOnce task action 1).1, calls + 1, waits⟩ := by
  simp only [runAttempts, if_neg hkind, hsucc]

/-- Registering an output into a nil variable environment panics. -/
theorem finishTask_panicked (task : Task) (st : ExecState) (out : String)
    (errOpt : Option GoErr) (calls : Nat) (waits : List Nat)
    (hreg : task.register ≠ "") (hnil : st.varEnv = none) :
    (finishTask task st out errOpt calls waits).outcome = TaskOutcome.panicked := by
  simp only [finishTask]
  rw [if_pos ⟨hreg, hnil⟩]

/-- C9: outside dry-run, `NewExecutor` adopts the host's `Vars` map
itself as the variable environment (part 1), so a host that declares no
vars has a nil environment; the first `ExecuteTask` that merges
task-level variables (part 2) or stores a register output (part 3) then
writes to a nil map and panics instead of returning an error. -/
theorem C9_nil_vars_panic :
    (∀ (hostVars : Option Vars) (registry : List String),
        (newExecutorState false hostVars registry).varEnv = hostVars) ∧
    (∀ (opts : ExecOpts) (hostName : String) (task : Task)
        (action : Nat → String × Option GoErr) (timer : Nat → Bool)
        (registry : List String),
        task.delegateTo = "" →
        (task.runOnce = false ∨ task.name ∉ registry) →
        task.dependsOn = [] →
        task.vars ≠ [] →
        (executeTask opts hostName task action timer
          (newExecutorState false none registry)).outcome = TaskOutcome.panicked) ∧
    (∀ (hostName : String) (task : Task)
        (action : Nat → String × Option GoErr) (timer : Nat → Bool)
        (registry : List String),
        task.delegateTo = "" →
        (task.runOnce = false ∨ task.name ∉ registry) →
        task.dependsOn = [] →
        task.vars = [] →
        task.whenCond = "" →
        task.register ≠ "" →
        ¬ taskKind task = .noType →
        (action 1).2 = none →
        (executeTask { dryRun := false } hostName task action timer
          (newExecutorState false none registry)).outcome = TaskOutcome.panicked) := by
  refine ⟨fun hostVars registry => rfl, ?_, ?_⟩
  · intro opts hostName task action timer registry hdel honce hdeps hvars
    have hc1 : ¬(task.delegateTo ≠ "" ∧ task.delegateTo ≠ hostName ∧
        task.delegateTo ≠ "localhost") := by simp [hdel]
    have hc2 : ¬(task.delegateTo = "localhost" ∧ task.command ≠ "") := by simp [hdel]
    cases hro : task.runOnce with
    | false =>
      have hc3 : ¬(task.runOnce = true ∧
          task.name ∈ (newExecutorState false none registry).runOnceExecuted) := by
        simp [hro]
      simp only [executeTask, if_neg hc1, if_neg hc2, if_neg hc3, hro,
        Bool.false_eq_true, if_false, hdeps, List.find?_nil]
      simp [hvars, newExecutorState]
    | true =>
      have hnm : task.name ∉ registry := by
        rcases honce with h | h
        · rw [hro] at h; cases h
        · exact h
      have hc3 : ¬(task.runOnce = true ∧
          task.name ∈ (newExecutorState false none registry).runOnceExecuted) := by
        simp [newExecutorState, hnm]
      simp only [executeTask, if_neg hc1, if_neg hc2, if_neg hc3, hro, if_true,
        hdeps, List.find?_nil]
      simp [hvars, newExecutorState, hnm]
  · intro hostName task action timer registry hdel honce hdeps hvars hwhen hreg hkind hsucc
    have hc1 : ¬(task.delegateTo ≠ "" ∧ task.delegateTo ≠ hostName ∧
        task.delegateTo ≠ "localhost") := by simp [hdel]
    have hc2 : ¬(task.delegateTo = "localhost" ∧ task.command ≠ "") := by simp [hdel]
    have hmerge : mergedVariables (newExecutorState false none registry) task = none := by
      simp [mergedVariables, hvars, newExecutorState]
    have hattempt : (attemptOnce task action 1).2 = none := by
      simp [attemptOnce, hsucc]
    cases hro : task.runOnce with
    | false =>
      have hc3 : ¬(task.runOnce = true ∧
          task.name ∈ (newExecutorState false none registry).runOnceExecuted) := by
        simp [hro]
      simp only [executeTask, if_neg hc1, if_neg hc2, if_neg hc3, hro,
        Bool.false_eq_true, false_and, if_false, hdeps, List.find?_nil]
      rw [if_neg (fun hcon => hcon.1 hvars)]
      rw [if_neg (fun hcon => hcon.1 hwhen)]
      rw [runAttempts_first_success task action timer _ _ _ _ _ _ hkind hattempt]
      dsimp only
      refine finishTask_panicked _ _ _ _ _ _ hreg ?_
      exact hmerge
    | true =>
      have hnm : task.name ∉ registry := by
        rcases honce with h | h
        · rw [hro] at h; cases h
        · exact h
      have hc3 : ¬(task.runOnce = true ∧
          task.name ∈ (newExecutorState false none registry).runOnceExecuted) := by
        simp [newExecutorState, hnm]
      simp only [executeTask, if_neg hc1, if_neg hc2]
      rw [if_neg hc3]
      simp only [hro, eq_self_iff_true, if_true, Bool.false_eq_true, if_false,
        hdeps, List.find?_nil]
      rw [if_neg (fun hcon => hcon.1 hvars)]
      rw [if_neg (fun hcon => hcon.1 hwhen)]
      rw [runAttempts_first_success task action timer _ _ _ _ _ _ hkind hattempt]
      dsimp only
      refine finishTask_panicked _ _ _ _ _ _ hreg ?_
      exact hmerge

/-- C9 witness: both panic paths at concrete inputs. -/
theorem C9_nil_vars_panic_witness :
    (executeTask {} "h1" { name := "t", command := "c", vars := [("k", "v")] }
        (fun _ => ("", some (.msg "boom"))) (fun _ => false)
        (newExecutorState false none [])).outcome = TaskOutcome.panicked ∧
    (executeTask { dryRun := false } "h1"
        { name := "t", command := "c", register := "out" }
        (fun _ => ("hi", none)) (fun _ => false)
        (newExecutorState false none [])).outcome = TaskOutcome.panicked :=
  ⟨C9_nil_vars_panic.2.1 {} "h1" { name := "t", command := "c", vars := [("k", "v")] }
      (fun _ => ("", some (.msg "boom"))) (fun _ => false) []
      rfl (Or.inl rfl) rfl (by decide),
   C9_nil_vars_panic.2.2 "h1" { name := "t", command := "c", register := "out" }
      (fun _ => ("hi", none)) (fun _ => false) []
      rfl (Or.inl rfl) rfl rfl rfl (by decide) (by decide) rfl⟩

/-- C5: condition evaluation implements exactly two forms on the
whitespace-trimmed condition and otherwise fails open: (1) a condition
ending in `is defined` is true iff the trimmed name before it exists as a
key in the variable environment; (2) a condition containing `==` that
splits into exactly two parts is true iff the variable-substituted,
whitespace-trimmed left side equals the right side with surrounding
quote characters trimmed (then whitespace-trimmed, as in the source);
(3) any other text, and (4) the empty condition, evaluate true; and
(5) when a task's `when` is evaluated and comes out false, the task is
skipped and marked completed and the remote executor is never invoked. -/
theorem C5_condition_evaluation :
    (∀ (vars : Option Vars) (cond : String),
        goHasSuffix (goTrimSpace cond) "is defined" = true →
        (evaluateCondition vars cond = true ↔
          (lookupVar vars
            (goTrimSpace (goTrimSuffix (goTrimSpace cond) "is defined"))).isSome = true)) ∧
    (∀ (vars : Option Vars) (cond l r : String),
        goHasSuffix (goTrimSpace cond) "is defined" = false →
        goSplit (goTrimSpace cond) "==" = [l, r] →
        (evaluateCondition vars cond = true ↔
          goTrimSpace (substituteVars vars l) = goTrimSpace (goTrim r quoteChars))) ∧
    (∀ (vars : Option Vars) (cond : String),
        goHasSuffix (goTrimSpace cond) "is defined" = false →
        (goSplit (goTrimSpace cond) "==").length ≠ 2 →
        evaluateCondition vars cond = true) ∧
    (∀ vars : Option Vars, evaluateCondition vars "" = true) ∧
    (∀ (opts : ExecOpts) (hostName : String) (task : Task)
        (action : Nat → String × Option GoErr) (timer : Nat → Bool) (st : ExecState),
        (task.delegateTo = "" ∨ task.delegateTo = hostName ∨ task.delegateTo = "localhost") →
        (task.runOnce = false ∨ task.name ∉ st.runOnceExecuted) →
        (∀ d ∈ task.dependsOn, d ∈ st.completedTasks) →
        (task.vars = [] ∨ st.varEnv ≠ none) →
        task.whenCond ≠ "" →
        evaluateCondition (mergedVariables st task) task.whenCond = false →
        (executeTask opts hostName task action timer st).outcome = TaskOutcome.ok ∧
        task.name ∈ (executeTask opts hostName task action timer st).state.completedTasks ∧
        (executeTask opts hostName task action timer st).actionCalls = 0) := by
  refine ⟨?_, ?_, ?_, fun vars => rfl, ?_⟩
  · intro vars cond h
    simp only [evaluateCondition, h, if_true]
  · intro vars cond l r h hsplit
    have hcont : goContainsStr (goTrimSpace cond) "==" = true := by
      simp [goContainsStr, hsplit]
    simp only [evaluateCondition, h, Bool.false_eq_true, if_false, hcont, if_true, hsplit]
    exact beq_iff_eq
  · intro vars cond h hlen
    simp only [evaluateCondition, h, Bool.false_eq_true, if_false]
    split
    · rcases hsp : goSplit (goTrimSpace cond) "==" with _ | ⟨a, _ | ⟨b, _ | ⟨c, rest⟩⟩⟩ <;>
        simp [hsp] at hlen ⊢
    · rfl
  · intro opts hostName task action timer st hdel honce hdep hvars hwne heval

    have hc1 : ¬(task.delegateTo ≠ "" ∧ task.delegateTo ≠ hostName ∧
        task.delegateTo ≠ "localhost") := by
      rcases hdel with h | h | h <;> simp [h]
    have hfind : task.dependsOn.find? (fun x => !(st.completedTasks.contains x)) = none := by
      rw [List.find?_eq_none]
      intro x hx
      simp [hdep x hx]
    by_cases hrw : task.delegateTo = "localhost" ∧ task.command ≠ ""
    · cases hro : task.runOnce with
      | false =>
        have hc3 : ¬(task.runOnce = true ∧ task.name ∈ st.runOnceExecuted) := by simp [hro]
        simp only [executeTask, if_neg hc1, if_pos hrw, if_neg hc3, hro,
          Bool.false_eq_true, false_and, if_false, hfind]
        rw [if_neg (fun hcon => hvars.elim hcon.1 (fun h2 => h2 hcon.2))]
        rw [if_pos ⟨hwne, fun habs => Bool.false_ne_true (heval.symm.trans habs)⟩]
        refine ⟨rfl, ?_, rfl⟩
        exact mem_insertStr _ _
      | true =>
        have hnm : task.name ∉ st.runOnceExecuted := by
          rcases honce with h | h
          · rw [hro] at h; cases h
          · exact h
        have hc3 : ¬(task.runOnce = true ∧ task.name ∈ st.runOnceExecuted) := by simp [hnm]
        simp only [executeTask, if_neg hc1, if_pos hrw]
        rw [if_neg hc3]
        simp only [hro, eq_self_iff_true, if_true, hfind]
        rw [if_neg (fun hcon => hvars.elim hcon.1 (fun h2 => h2 hcon.2))]
        rw [if_pos ⟨hwne, fun habs => Bool.false_ne_true (heval.symm.trans habs)⟩]
        refine ⟨rfl, ?_, rfl⟩
        exact mem_insertStr _ _
    · cases hro : task.runOnce with
      | false =>
        have hc3 : ¬(task.runOnce = true ∧ task.name ∈ st.runOnceExecuted) := by simp [hro]
        simp only [executeTask, if_neg hc1, if_neg hrw, if_neg hc3, hro,
          Bool.false_eq_true, false_and, if_false, hfind]
        rw [if_neg (fun hcon => hvars.elim hcon.1 (fun h2 => h2 hcon.2))]
        rw [if_pos ⟨hwne, fun habs => Bool.false_ne_true (heval.symm.trans habs)⟩]
        refine ⟨rfl, ?_, rfl⟩
        exact mem_insertStr _ _
      | true =>
        have hnm : task.name ∉ st.runOnceExecuted := by
          rcases honce with h | h
          · rw [hro] at h; cases h
          · exact h
        have hc3 : ¬(task.runOnce = true ∧ task.name ∈ st.runOnceExecuted) := by simp [hnm]
        simp only [executeTask, if_neg hc1, if_neg hrw]
        rw [if_neg hc3]
        simp only [hro, eq_self_iff_true, if_true, hfind]
        rw [if_neg (fun hcon => hvars.elim hcon.1 (fun h2 => h2 hcon.2))]
        rw [if_pos ⟨hwne, fun habs => Bool.false_ne_true (heval.symm.trans habs)⟩]
        refine ⟨rfl, ?_, rfl⟩
        exact mem_insertStr _ _

/-- C5 witness: both explicit condition forms, fail-open text, and a
concrete skipped task (scenarios A and B). -/
theorem C5_condition_evaluation_witness :
    evaluateCondition (some [("x", "1")]) "x is defined" = true ∧
    evaluateCondition (some [("os", "ubuntu")]) "{{.os}} == ubuntu" = true ∧
    evaluateCondition (some [("os", "ubuntu")]) "random text" = true ∧
    (executeTask {} "h1"
        { name := "t", command := "echo hi", whenCond := "{{.os}} == ubuntu" }
        (fun _ => ("", some (.msg "x"))) (fun _ => false)
        { varEnv := some [("os", "centos")] }).outcome = TaskOutcome.ok ∧
    "t" ∈ (executeTask {} "h1"
        { name := "t", command := "echo hi", whenCond := "{{.os}} == ubuntu" }
        (fun _ => ("", some (.msg "x"))) (fun _ => false)
        { varEnv := some [("os", "centos")] }).state.completedTasks ∧
    (executeTask {} "h1"
        { name := "t", command := "echo hi", whenCond := "{{.os}} == ubuntu" }
        (fun _ => ("", some (.msg "x"))) (fun _ => false)
        { varEnv := some [("os", "centos")] }).actionCalls = 0 := by
  obtain ⟨skip1, skip2, skip3⟩ := C5_condition_evaluation.2.2.2.2 {} "h1"
    { name := "t", command := "echo hi", whenCond := "{{.os}} == ubuntu" }
    (fun _ => ("", some (.msg "x"))) (fun _ => false)
    { varEnv := some [("os", "centos")] }
    (Or.inl rfl) (Or.inl rfl) (by simp) (Or.inl rfl) (by decide) (by decide)
  exact ⟨(C5_condition_evaluation.1 (some [("x", "1")]) "x is defined" (by decide)).mpr
      (by decide),
    (C5_condition_evaluation.2.1 (some [("os", "ubuntu")]) "{{.os}} == ubuntu"
      "{{.os}} " " ubuntu" (by decide) (by decide)).mpr (by decide),
    C5_condition_evaluation.2.2.1 (some [("os", "ubuntu")]) "random text"
      (by decide) (by decide),
    skip1, skip2, skip3⟩

end Sshot
